import Mathlib

/-!
Shallow embedding of `src/sandbox/mhi-compute.py` (the `mhi-compute` script of
the khmer sandbox).  The script parses command-line arguments, builds a khmer
`Countgraph`, ingests a sequence file via `consume_and_tag`, builds
neighborhood MinHashes and saves the resulting index.

The script's externally visible behaviour is modelled as a trace of effects
(prints, graph operations, file writes) together with a process exit code.
Python semantics relevant here: an uncaught exception terminates the process
with a non-zero exit code (1); `main` returning normally yields exit code 0.
The khmer/screed library calls are opaque collaborators: each call is one
trace event, and the fallible ones (iterating `screed.open`, `save`) are
driven by a `FileSystem` model saying whether/where they fail.
-/

namespace Mhi

/-- A sequence record as yielded by `screed.open`: a name and a sequence. -/
structure Record where
  name : String
  sequence : String
  deriving DecidableEq, Repr

/-- Parsed command-line arguments, as produced by `argparse`:
`seqfile` (positional), `-o` alias `--output` (optional string), `--protein`
(store_true flag), `-k` alias `--ksize` (optional int; `argparse` applies the default
`KSIZE` when absent, modelled here as `Option Int` resolved at use site). -/
structure Args where
  seqfile : String
  output : Option String
  protein : Bool
  ksize : Option Int
  deriving DecidableEq, Repr

/-- Model of the run environment: the records the input file yields,
`failAt = some n` meaning the record iteration raises when fetching the
record at index `n` (unreadable file: `failAt = some 0`; `none`: no failure),
and whether the final `save` succeeds. -/
structure FileSystem where
  records : List Record
  failAt : Option Nat
  saveOk : Bool
  deriving DecidableEq, Repr

/-- One externally visible effect of the script.  Each `print` statement of
the source is its own constructor carrying its variable parts.
`renameFile` models `os.rename`; the script never performs it. -/
inductive Event where
  | printLoading (seqfile : String)
  | printWillSave (outfile : String)
  | createGraph (ksize : Int) (tableSize nTables : Nat)
  | setTagDensity (d : Nat)
  | printReading
  | printRecord (name : String)
  | consumeAndTag (sequence : String)
  | printDoneLoading
  | printBuilding
  | buildMinhashes (sketchSize hashModulus : Nat) (protein : Bool)
  | saveIndex (path : String)
  | renameFile (src dst : String)
  | printDone (outfile : String)
  deriving DecidableEq, Repr

/-- Outcome of one run of the script: its effect trace and process exit code. -/
structure RunResult where
  trace : List Event
  exitCode : Nat
  deriving DecidableEq, Repr

/-- `MH_LEN=50` (module-level constant of the script). -/
def MH_LEN : Nat := 50

/-- `KSIZE=32` (module-level constant of the script). -/
def KSIZE : Int := 32

/-- `os.path.basename`: the part of the path after the last `/` (the whole
path when it contains no `/`, the empty string when it ends in `/`). -/
def basename (p : String) : String :=
  ⟨p.data.foldl (fun acc c => if c = '/' then [] else acc ++ [c]) []⟩

/-- The output path: `outfile = args.output; if not outfile: outfile =
os.path.basename(args.seqfile) + '.mhi'`.  Python truthiness: `not outfile`
holds when `args.output` is `None` or the empty string. -/
def outfileOf (a : Args) : String :=
  match a.output with
  | none => basename a.seqfile ++ ".mhi"
  | some s => if s = "" then basename a.seqfile ++ ".mhi" else s

/-- `load_and_tag(ct, filename)` body after the initial print: iterate the
records, printing `'.', record.name` and calling `ct.consume_and_tag` on
each.  Returns the trace of the loop and whether it completed (`false` when
the iteration raised at index `failAt`, terminating the loop there). -/
def loadTag : List Record → Nat → Option Nat → List Event × Bool
  | [], i, failAt =>
    if failAt = some i then ([], false)
    else ([Event.printDoneLoading], true)
  | r :: rest, i, failAt =>
    if failAt = some i then ([], false)
    else
      let next := loadTag rest (i + 1) failAt
      (Event.printRecord r.name :: Event.consumeAndTag r.sequence :: next.1,
       next.2)

set_option linter.unusedVariables false in
/-- The body of `main` after argument parsing, as a trace and exit code.
The `mhLen` parameter stands for the module constant `MH_LEN`; the body
never consults it, mirroring the source, where `MH_LEN` is defined but
unused.  `5e8` denotes `500000000.0`; the table size is modelled as that
natural number.  An uncaught exception (failed ingestion or failed save)
exits with code 1; normal completion exits 0. -/
def runScript (mhLen : Nat) (a : Args) (fs : FileSystem) : RunResult :=
  let outfile := outfileOf a
  let t0 : List Event :=
    [Event.printLoading a.seqfile, Event.printWillSave outfile,
     Event.createGraph (a.ksize.getD KSIZE) 500000000 2,
     Event.setTagDensity 200,
     Event.printReading]
  let lt := loadTag fs.records 0 fs.failAt
  if lt.2 then
    let t1 := t0 ++ lt.1 ++
      [Event.printBuilding, Event.buildMinhashes 20 9999999967 a.protein]
    if fs.saveOk then
      ⟨t1 ++ [Event.saveIndex outfile, Event.printDone outfile], 0⟩
    else ⟨t1, 1⟩
  else ⟨t0 ++ lt.1, 1⟩

/-- The script's `main` (after `argparse`): `runScript` at the module
constant `MH_LEN`. -/
def mainRun : Args → FileSystem → RunResult := runScript MH_LEN

/-- Whether the ingestion loop completes without raising. -/
def ingestOk (fs : FileSystem) : Bool :=
  (loadTag fs.records 0 fs.failAt).2

/-! Observers over traces, and structural lemmas about `mainRun`. -/

/-- The prefix of the run before ingestion: the two banner prints, the
`Countgraph` construction, `_set_tag_density(200)`, and the first print of
`load_and_tag`. -/
def preTrace (a : Args) : List Event :=
  [Event.printLoading a.seqfile, Event.printWillSave (outfileOf a),
   Event.createGraph (a.ksize.getD KSIZE) 500000000 2,
   Event.setTagDensity 200,
   Event.printReading]

/-- Events that the ingestion loop can emit. -/
def isIngestEvent : Event → Bool
  | .printRecord _ => true
  | .consumeAndTag _ => true
  | .printDoneLoading => true
  | _ => false

/-- Events that mutate the counting graph. -/
def isMutation : Event → Bool
  | .createGraph _ _ _ => true
  | .setTagDensity _ => true
  | .consumeAndTag _ => true
  | _ => false

/-- The sequence consumed by a `consume_and_tag` event, if any. -/
def consumedSeq : Event → Option String
  | .consumeAndTag s => some s
  | _ => none

/-- The paths written by `save` events of a trace. -/
def saveTargets (t : List Event) : List String :=
  t.filterMap fun e =>
    match e with
    | .saveIndex p => some p
    | _ => none

/-- The `os.rename` events of a trace (the script performs none). -/
def renameEvents (t : List Event) : List (String × String) :=
  t.filterMap fun e =>
    match e with
    | .renameFile s d => some (s, d)
    | _ => none

/-- The `Countgraph` constructions of a trace, with their parameters. -/
def createEvents (t : List Event) : List (Int × Nat × Nat) :=
  t.filterMap fun e =>
    match e with
    | .createGraph k ts n => some (k, ts, n)
    | _ => none

/-- `powMod fuel b e m = b ^ e % m` when `e < 2 ^ fuel`, by repeated
squaring; structural recursion on `fuel` keeps it kernel-evaluable.  Used
to certify the primality of the hash modulus `9999999967` via a Lucas
certificate. -/
def powMod : Nat → Nat → Nat → Nat → Nat
  | 0, _, _, m => 1 % m
  | fuel + 1, b, e, m =>
    if e = 0 then 1 % m
    else
      let r := powMod fuel (b * b % m) (e / 2) m
      if e % 2 = 0 then r else r * b % m

/-- `scrubProtein` erases the `protein` argument of the sketch-building
call, leaving every other event untouched; two traces agreeing after
`scrubProtein` differ at most in that argument. -/
def scrubProtein : Event → Event
  | .buildMinhashes s m _ => .buildMinhashes s m false
  | e => e

theorem loadTag_events (recs : List Record) :
    ∀ i f e, e ∈ (loadTag recs i f).1 → isIngestEvent e = true := by
  induction recs with
  | nil =>
    intro i f e he
    rw [loadTag] at he
    by_cases hf : f = some i
    · simp [hf] at he
    · simp [hf] at he
      subst he
      rfl
  | cons r rest ih =>
    intro i f e he
    rw [loadTag] at he
    by_cases hf : f = some i
    · simp [hf] at he
    · simp only [if_neg hf, List.mem_cons] at he
      rcases he with he | he | he
      · subst he; rfl
      · subst he; rfl
      · exact ih (i + 1) f e he

theorem loadTag_consumes (recs : List Record) :
    ∀ i f, (loadTag recs i f).2 = true →
      (loadTag recs i f).1.filterMap consumedSeq =
        recs.map Record.sequence := by
  induction recs with
  | nil =>
    intro i f h
    rw [loadTag] at h ⊢
    by_cases hf : f = some i
    · simp [hf] at h
    · simp [hf, consumedSeq]
  | cons r rest ih =>
    intro i f h
    rw [loadTag] at h ⊢
    by_cases hf : f = some i
    · simp [hf] at h
    · simp only [if_neg hf] at h ⊢
      simp [List.filterMap_cons, consumedSeq, ih (i + 1) f h]

theorem loadTag_saveTargets (recs : List Record) (i : Nat) (f : Option Nat) :
    saveTargets (loadTag recs i f).1 = [] := by
  rw [saveTargets, List.filterMap_eq_nil_iff]
  intro e he
  have h := loadTag_events recs i f e he
  cases e <;> simp_all [isIngestEvent]

theorem loadTag_renameEvents (recs : List Record) (i : Nat) (f : Option Nat) :
    renameEvents (loadTag recs i f).1 = [] := by
  rw [renameEvents, List.filterMap_eq_nil_iff]
  intro e he
  have h := loadTag_events recs i f e he
  cases e <;> simp_all [isIngestEvent]

theorem loadTag_createEvents (recs : List Record) (i : Nat) (f : Option Nat) :
    createEvents (loadTag recs i f).1 = [] := by
  rw [createEvents, List.filterMap_eq_nil_iff]
  intro e he
  have h := loadTag_events recs i f e he
  cases e <;> simp_all [isIngestEvent]

theorem loadTag_no_build (recs : List Record) (i : Nat) (f : Option Nat)
    (s m : Nat) (p : Bool) :
    Event.buildMinhashes s m p ∉ (loadTag recs i f).1 := by
  intro he
  have h := loadTag_events recs i f _ he
  simp [isIngestEvent] at h

theorem loadTag_no_save (recs : List Record) (i : Nat) (f : Option Nat)
    (p : String) :
    Event.saveIndex p ∉ (loadTag recs i f).1 := by
  intro he
  have h := loadTag_events recs i f _ he
  simp [isIngestEvent] at h

theorem loadTag_no_printDone (recs : List Record) (i : Nat) (f : Option Nat)
    (p : String) :
    Event.printDone p ∉ (loadTag recs i f).1 := by
  intro he
  have h := loadTag_events recs i f _ he
  simp [isIngestEvent] at h

theorem preTrace_consumes (a : Args) :
    (preTrace a).filterMap consumedSeq = [] := rfl

theorem preTrace_saveTargets (a : Args) : saveTargets (preTrace a) = [] := rfl

theorem preTrace_renameEvents (a : Args) :
    renameEvents (preTrace a) = [] := rfl

theorem preTrace_createEvents (a : Args) :
    createEvents (preTrace a) = [(a.ksize.getD KSIZE, 500000000, 2)] := rfl

theorem mainRun_ingestFail (a : Args) (fs : FileSystem)
    (h : ingestOk fs = false) :
    mainRun a fs =
      ⟨preTrace a ++ (loadTag fs.records 0 fs.failAt).1, 1⟩ := by
  rw [ingestOk] at h
  simp [mainRun, runScript, preTrace, h]

theorem mainRun_saveFail (a : Args) (fs : FileSystem)
    (h1 : ingestOk fs = true) (h2 : fs.saveOk = false) :
    mainRun a fs =
      ⟨preTrace a ++ (loadTag fs.records 0 fs.failAt).1 ++
        [Event.printBuilding,
         Event.buildMinhashes 20 9999999967 a.protein], 1⟩ := by
  rw [ingestOk] at h1
  simp [mainRun, runScript, preTrace, h1, h2]

theorem mainRun_ok (a : Args) (fs : FileSystem)
    (h1 : ingestOk fs = true) (h2 : fs.saveOk = true) :
    mainRun a fs =
      ⟨preTrace a ++ (loadTag fs.records 0 fs.failAt).1 ++
        [Event.printBuilding,
         Event.buildMinhashes 20 9999999967 a.protein,
         Event.saveIndex (outfileOf a),
         Event.printDone (outfileOf a)], 0⟩ := by
  rw [ingestOk] at h1
  simp [mainRun, runScript, preTrace, h1, h2]

theorem saveTargets_append (x y : List Event) :
    saveTargets (x ++ y) = saveTargets x ++ saveTargets y :=
  List.filterMap_append x y _

theorem renameEvents_append (x y : List Event) :
    renameEvents (x ++ y) = renameEvents x ++ renameEvents y :=
  List.filterMap_append x y _

theorem createEvents_append (x y : List Event) :
    createEvents (x ++ y) = createEvents x ++ createEvents y :=
  List.filterMap_append x y _

/-- On a successful run, the save events are exactly one write to the
output path. -/
theorem mainRun_saveTargets_ok (a : Args) (fs : FileSystem)
    (h : ingestOk fs = true) (hs : fs.saveOk = true) :
    saveTargets (mainRun a fs).trace = [outfileOf a] := by
  rw [mainRun_ok a fs h hs]
  show saveTargets (preTrace a ++ (loadTag fs.records 0 fs.failAt).1 ++ _)
    = _
  rw [saveTargets_append, saveTargets_append, preTrace_saveTargets,
    loadTag_saveTargets]
  rfl

/-- The build step appears in a run's trace exactly when ingestion
completed, and then with sketch size `20`, hash modulus `9999999967`, and
the run's `protein` flag. -/
theorem build_mem_iff (a : Args) (fs : FileSystem) (s m : Nat) (p : Bool) :
    Event.buildMinhashes s m p ∈ (mainRun a fs).trace ↔
      (ingestOk fs = true ∧ s = 20 ∧ m = 9999999967 ∧ p = a.protein) := by
  rcases Bool.eq_false_or_eq_true (ingestOk fs) with h | h
  · rcases Bool.eq_false_or_eq_true fs.saveOk with hs | hs
    · rw [mainRun_ok a fs h hs]
      constructor
      · intro hmem
        simp only [List.append_assoc, List.mem_append, List.mem_cons,
          List.mem_singleton] at hmem
        rcases hmem with hmem | hmem | hmem
        · simp [preTrace] at hmem
        · exact absurd hmem (loadTag_no_build _ _ _ _ _ _)
        · rcases hmem with hmem | hmem | hmem
          · exact absurd hmem (by simp)
          · obtain ⟨h20, hmod, hp⟩ := Event.buildMinhashes.inj hmem
            exact ⟨h, h20, hmod, hp⟩
          · simp at hmem
      · rintro ⟨-, rfl, rfl, rfl⟩
        simp
    · rw [mainRun_saveFail a fs h hs]
      constructor
      · intro hmem
        simp only [List.append_assoc, List.mem_append, List.mem_cons,
          List.mem_singleton] at hmem
        rcases hmem with hmem | hmem | hmem
        · simp [preTrace] at hmem
        · exact absurd hmem (loadTag_no_build _ _ _ _ _ _)
        · simp only [List.mem_cons, List.not_mem_nil, or_false] at hmem
          rcases hmem with hmem | hmem
          · exact absurd hmem (by simp)
          · obtain ⟨h20, hmod, hp⟩ := Event.buildMinhashes.inj hmem
            exact ⟨h, h20, hmod, hp⟩
      · rintro ⟨-, rfl, rfl, rfl⟩
        simp
  · rw [mainRun_ingestFail a fs h]
    constructor
    · intro hmem
      simp only [List.mem_append] at hmem
      rcases hmem with hmem | hmem
      · simp [preTrace] at hmem
      · exact absurd hmem (loadTag_no_build _ _ _ _ _ _)
    · rintro ⟨h1, -⟩
      rw [h] at h1
      exact absurd h1 (by simp)

/-! Binary modular exponentiation, used to certify the primality of the
hash modulus `9999999967` via a Lucas certificate. -/

theorem powMod_eq (fuel : Nat) :
    ∀ b e m, e < 2 ^ fuel → powMod fuel b e m = b ^ e % m := by
  induction fuel with
  | zero =>
    intro b e m h
    have he : e = 0 := by simpa using h
    subst he
    simp [powMod]
  | succ n ih =>
    intro b e m h
    rcases Nat.eq_zero_or_pos e with he | he
    · subst he
      simp [powMod]
    · have hpow2 : 2 ^ (n + 1) = 2 * 2 ^ n := by rw [pow_succ, Nat.mul_comm]
      have h2 : e / 2 < 2 ^ n := by omega
      have hne : ¬ e = 0 := by omega
      have key : (b * b % m) ^ (e / 2) % m = b ^ (2 * (e / 2)) % m := by
        rw [← Nat.pow_mod, ← pow_two, ← pow_mul]
      simp only [powMod, if_neg hne]
      rw [ih (b * b % m) (e / 2) m h2]
      rcases Nat.mod_two_eq_zero_or_one e with h0 | h1
      · rw [if_pos h0, key]
        have heq : 2 * (e / 2) = e := by omega
        rw [heq]
      · rw [if_neg (by omega), key]
        have hsplit : e = 2 * (e / 2) + 1 := by omega
        conv_rhs => rw [hsplit, pow_succ]
        conv_lhs => rw [Nat.mul_mod]
        conv_rhs => rw [Nat.mul_mod]
        rw [Nat.mod_mod_of_dvd _ dvd_rfl]

/-- Reduction of a power equation in `ZMod 9999999967` to a `powMod`
computation on naturals. -/
theorem zmod_pow_modulus_iff (e : Nat) (he : e < 2 ^ 34) :
    (((10 : Nat) : ZMod 9999999967) ^ e = 1 ↔
      powMod 34 10 e 9999999967 = 1) := by
  rw [show ((1 : ZMod 9999999967) = ((1 : Nat) : ZMod 9999999967)) by norm_num]
  rw [← Nat.cast_pow, ZMod.natCast_eq_natCast_iff', powMod_eq 34 10 e _ he]

/-- The hash modulus `9999999967` passed to `build_neighborhood_minhashes`
is prime: Lucas certificate with witness `10`, using the factorisation
`9999999966 = 2 * 3 * 11 * 457 * 331543`. -/
theorem hash_modulus_prime : Nat.Prime 9999999967 := by
  apply lucas_primality 9999999967 ((10 : Nat) : ZMod 9999999967)
  · rw [show ((9999999967 : Nat) - 1 = 9999999966) by norm_num]
    exact (zmod_pow_modulus_iff 9999999966 (by norm_num)).mpr (by decide)
  · intro q hq hdvd
    rw [show ((9999999967 : Nat) - 1 = 2 * (3 * (11 * (457 * 331543)))) by norm_num]
      at hdvd
    have hq2 : Nat.Prime 2 := by norm_num
    have hq3 : Nat.Prime 3 := by norm_num
    have hq11 : Nat.Prime 11 := by norm_num
    have hq457 : Nat.Prime 457 := by norm_num
    have hq331543 : Nat.Prime 331543 := by norm_num
    rcases (Nat.Prime.dvd_mul hq).mp hdvd with h | h
    · rw [(Nat.prime_dvd_prime_iff_eq hq hq2).mp h,
        show ((9999999967 : Nat) - 1) / 2 = 4999999983 by norm_num]
      intro hcon
      exact absurd ((zmod_pow_modulus_iff 4999999983 (by norm_num)).mp hcon)
        (by decide)
    rcases (Nat.Prime.dvd_mul hq).mp h with h | h
    · rw [(Nat.prime_dvd_prime_iff_eq hq hq3).mp h,
        show ((9999999967 : Nat) - 1) / 3 = 3333333322 by norm_num]
      intro hcon
      exact absurd ((zmod_pow_modulus_iff 3333333322 (by norm_num)).mp hcon)
        (by decide)
    rcases (Nat.Prime.dvd_mul hq).mp h with h | h
    · rw [(Nat.prime_dvd_prime_iff_eq hq hq11).mp h,
        show ((9999999967 : Nat) - 1) / 11 = 909090906 by norm_num]
      intro hcon
      exact absurd ((zmod_pow_modulus_iff 909090906 (by norm_num)).mp hcon)
        (by decide)
    rcases (Nat.Prime.dvd_mul hq).mp h with h | h
    · rw [(Nat.prime_dvd_prime_iff_eq hq hq457).mp h,
        show ((9999999967 : Nat) - 1) / 457 = 21881838 by norm_num]
      intro hcon
      exact absurd ((zmod_pow_modulus_iff 21881838 (by norm_num)).mp hcon)
        (by decide)
    · rw [(Nat.prime_dvd_prime_iff_eq hq hq331543).mp h,
        show ((9999999967 : Nat) - 1) / 331543 = 30162 by norm_num]
      intro hcon
      exact absurd ((zmod_pow_modulus_iff 30162 (by norm_num)).mp hcon)
        (by decide)

/-- C1 (counterexample): on a successful run the index is saved directly to
the requested output path — the trace's only save event targets the final
path itself and contains no rename — refuting the claim that the final
index is written to an atomically-renamed temporary path rather than
directly to the output path. -/
theorem claim_C1_counterexample :
    saveTargets (mainRun ⟨"in.fa", some "out.mhi", false, none⟩
      ⟨[⟨"r1", "ACGT"⟩], none, true⟩).trace = ["out.mhi"] ∧
    renameEvents (mainRun ⟨"in.fa", some "out.mhi", false, none⟩
      ⟨[⟨"r1", "ACGT"⟩], none, true⟩).trace = [] ∧
    (mainRun ⟨"in.fa", some "out.mhi", false, none⟩
      ⟨[⟨"r1", "ACGT"⟩], none, true⟩).exitCode = 0 ∧
    outfileOf ⟨"in.fa", some "out.mhi", false, none⟩ = "out.mhi" := by
  decide

/-- C1 (amended): the index is written only after the entire pipeline
completes — no output file is written if ingestion is interrupted or
fails, and on success the save to the output path is the run's final file
operation — but the index is written directly to the output path: no
temporary path and no atomic rename is used. -/
theorem claim_C1 (a : Args) (fs : FileSystem) :
    (ingestOk fs = false → saveTargets (mainRun a fs).trace = []) ∧
    renameEvents (mainRun a fs).trace = [] ∧
    (ingestOk fs = true → fs.saveOk = true →
      saveTargets (mainRun a fs).trace = [outfileOf a] ∧
      ∃ pre, (mainRun a fs).trace =
        pre ++ [Event.saveIndex (outfileOf a),
                Event.printDone (outfileOf a)]) := by
  refine ⟨?_, ?_, ?_⟩
  · intro h
    rw [mainRun_ingestFail a fs h]
    show saveTargets (preTrace a ++ _) = _
    rw [saveTargets_append, preTrace_saveTargets, loadTag_saveTargets]
    rfl
  · rcases Bool.eq_false_or_eq_true (ingestOk fs) with h | h
    · rcases Bool.eq_false_or_eq_true fs.saveOk with hs | hs
      · rw [mainRun_ok a fs h hs]
        show renameEvents (preTrace a ++ _ ++ _) = _
        rw [renameEvents_append, renameEvents_append,
          preTrace_renameEvents, loadTag_renameEvents]
        rfl
      · rw [mainRun_saveFail a fs h hs]
        show renameEvents (preTrace a ++ _ ++ _) = _
        rw [renameEvents_append, renameEvents_append,
          preTrace_renameEvents, loadTag_renameEvents]
        rfl
    · rw [mainRun_ingestFail a fs h]
      show renameEvents (preTrace a ++ _) = _
      rw [renameEvents_append, preTrace_renameEvents, loadTag_renameEvents]
      rfl
  · intro h hs
    refine ⟨mainRun_saveTargets_ok a fs h hs, ?_⟩
    rw [mainRun_ok a fs h hs]
    exact ⟨preTrace a ++ (loadTag fs.records 0 fs.failAt).1 ++
      [Event.printBuilding, Event.buildMinhashes 20 9999999967 a.protein],
      by simp⟩

/-- C1 witness: at a concrete interrupted run no save occurs, and at a
concrete successful run the single save targets the output path and is the
last file operation before the final print. -/
theorem claim_C1_witness :
    saveTargets (mainRun ⟨"in.fa", none, false, none⟩
      ⟨[], some 0, true⟩).trace = [] ∧
    (saveTargets (mainRun ⟨"in.fa", none, false, none⟩
       ⟨[], none, true⟩).trace = ["in.fa.mhi"] ∧
     ∃ pre, (mainRun ⟨"in.fa", none, false, none⟩ ⟨[], none, true⟩).trace =
       pre ++ [Event.saveIndex "in.fa.mhi", Event.printDone "in.fa.mhi"]) :=
  ⟨(claim_C1 ⟨"in.fa", none, false, none⟩ ⟨[], some 0, true⟩).1 (by decide),
   (claim_C1 ⟨"in.fa", none, false, none⟩ ⟨[], none, true⟩).2.2
     (by decide) (by decide)⟩

/-- C2: ingestion and partitioning are strictly ordered.  When the build
step runs, the trace splits into a prefix whose `consume_and_tag` events
are exactly the input records' sequences in order, the build invocation,
and a suffix containing no graph mutation; when ingestion fails, the build
step never runs. -/
theorem claim_C2 (a : Args) (fs : FileSystem) :
    (ingestOk fs = false →
      ∀ s m p, Event.buildMinhashes s m p ∉ (mainRun a fs).trace) ∧
    (ingestOk fs = true →
      ∃ pre post,
        (mainRun a fs).trace =
          pre ++ Event.buildMinhashes 20 9999999967 a.protein :: post ∧
        pre.filterMap consumedSeq = fs.records.map Record.sequence ∧
        ∀ e ∈ post, isMutation e = false) := by
  constructor
  · intro h s m p hmem
    rw [build_mem_iff] at hmem
    rw [h] at hmem
    simp at hmem
  · intro h
    have hcons : (preTrace a ++ (loadTag fs.records 0 fs.failAt).1 ++
        [Event.printBuilding]).filterMap consumedSeq =
          fs.records.map Record.sequence := by
      rw [List.filterMap_append, List.filterMap_append, preTrace_consumes,
        loadTag_consumes fs.records 0 fs.failAt h]
      simp [consumedSeq]
    rcases Bool.eq_false_or_eq_true fs.saveOk with hs | hs
    · exact ⟨preTrace a ++ (loadTag fs.records 0 fs.failAt).1 ++
        [Event.printBuilding],
        [Event.saveIndex (outfileOf a), Event.printDone (outfileOf a)],
        by rw [mainRun_ok a fs h hs]; simp,
        hcons,
        by
          intro e he
          simp only [List.mem_cons, List.not_mem_nil, or_false] at he
          rcases he with rfl | rfl <;> rfl⟩
    · exact ⟨preTrace a ++ (loadTag fs.records 0 fs.failAt).1 ++
        [Event.printBuilding], [],
        by rw [mainRun_saveFail a fs h hs]; simp,
        hcons,
        by intro e he; exact absurd he (List.not_mem_nil e)⟩

/-- C2 witness: on a concrete run with one record, the trace decomposes as
consumed-prefix, build invocation, and mutation-free suffix. -/
theorem claim_C2_witness :
    ∃ pre post,
      (mainRun ⟨"in.fa", none, false, none⟩
        ⟨[⟨"r", "ACGT"⟩], none, true⟩).trace =
          pre ++ Event.buildMinhashes 20 9999999967 false :: post ∧
      pre.filterMap consumedSeq = ["ACGT"] ∧
      ∀ e ∈ post, isMutation e = false :=
  (claim_C2 ⟨"in.fa", none, false, none⟩
    ⟨[⟨"r", "ACGT"⟩], none, true⟩).2 (by decide)

/-- C3: the run is a deterministic function of the command-line arguments
and the input file contents: two runs on identical input with identical
arguments produce identical traces — hence identical tag placement
(`consume_and_tag` calls) and an identical saved index. -/
theorem claim_C3 (a1 a2 : Args) (fs1 fs2 : FileSystem)
    (h1 : a1 = a2) (h2 : fs1 = fs2) :
    mainRun a1 fs1 = mainRun a2 fs2 := by
  rw [h1, h2]

/-- C3 witness: two textually identical concrete runs coincide. -/
theorem claim_C3_witness :
    mainRun ⟨"in.fa", none, false, none⟩ ⟨[⟨"r", "ACGT"⟩], none, true⟩ =
      mainRun ⟨"in.fa", none, false, none⟩ ⟨[⟨"r", "ACGT"⟩], none, true⟩ :=
  claim_C3 ⟨"in.fa", none, false, none⟩ ⟨"in.fa", none, false, none⟩
    ⟨[⟨"r", "ACGT"⟩], none, true⟩ ⟨[⟨"r", "ACGT"⟩], none, true⟩ rfl rfl

/-- C4 (counterexample): passing `-o ""` provides an output path, yet the
run does not use the provided path exactly: Python's `if not outfile`
treats the empty string like `None`, so the default
`basename(seqfile) + ".mhi"` is used instead. -/
theorem claim_C4_counterexample :
    outfileOf ⟨"dir/in.fa", some "", false, none⟩ ≠ "" ∧
    outfileOf ⟨"dir/in.fa", some "", false, none⟩ = "in.fa.mhi" ∧
    saveTargets (mainRun ⟨"dir/in.fa", some "", false, none⟩
      ⟨[], none, true⟩).trace = ["in.fa.mhi"] := by
  decide

/-- C4 (amended): when the output option is omitted — or provided as the
empty string, which Python truthiness treats the same way — the output
path is the basename of the input path with `".mhi"` appended; when a
non-empty output path is provided it is used exactly; and the path a
successful run saves to is exactly this output path. -/
theorem claim_C4 (a : Args) :
    ((a.output = none ∨ a.output = some "") →
      outfileOf a = basename a.seqfile ++ ".mhi") ∧
    (∀ s, a.output = some s → s ≠ "" → outfileOf a = s) ∧
    (∀ fs, ingestOk fs = true → fs.saveOk = true →
      saveTargets (mainRun a fs).trace = [outfileOf a]) := by
  refine ⟨?_, ?_, ?_⟩
  · rintro (h | h) <;> simp [outfileOf, h]
  · intro s hs hne
    simp [outfileOf, hs, hne]
  · intro fs h hs
    exact mainRun_saveTargets_ok a fs h hs

/-- C4 witness: concrete instances of the three cases — default path from
the basename, a provided non-empty path used exactly, and the saved path
equal to the output path. -/
theorem claim_C4_witness :
    outfileOf ⟨"dir/in.fa", none, false, none⟩ = "in.fa.mhi" ∧
    outfileOf ⟨"dir/in.fa", some "x.mhi", false, none⟩ = "x.mhi" ∧
    saveTargets (mainRun ⟨"dir/in.fa", none, false, none⟩
      ⟨[], none, true⟩).trace = ["in.fa.mhi"] :=
  ⟨(claim_C4 ⟨"dir/in.fa", none, false, none⟩).1 (Or.inl rfl),
   (claim_C4 ⟨"dir/in.fa", some "x.mhi", false, none⟩).2.1 "x.mhi" rfl
     (by decide),
   (claim_C4 ⟨"dir/in.fa", none, false, none⟩).2.2 ⟨[], none, true⟩
     (by decide) (by decide)⟩

/-- C5: the counting graph is constructed with k-mer size 32 when the
`-k` option is omitted, and with exactly the provided value otherwise. -/
theorem claim_C5 (a : Args) (fs : FileSystem) :
    Event.createGraph (match a.ksize with | none => 32 | some k => k)
      500000000 2 ∈ (mainRun a fs).trace := by
  have hm : (match a.ksize with | none => (32 : Int) | some k => k) =
      a.ksize.getD KSIZE := by
    cases a.ksize <;> rfl
  rw [hm]
  rcases Bool.eq_false_or_eq_true (ingestOk fs) with h | h
  · rcases Bool.eq_false_or_eq_true fs.saveOk with hs | hs
    · rw [mainRun_ok a fs h hs]
      simp [preTrace]
    · rw [mainRun_saveFail a fs h hs]
      simp [preTrace]
  · rw [mainRun_ingestFail a fs h]
    simp [preTrace]

/-- C6: every run constructs the counting structure exactly once, with the
fixed table size `5e8 = 500000000` and the fixed table count `2`; the
construction parameters depend on nothing but the k-mer size argument. -/
theorem claim_C6 (a1 a2 : Args) (fs1 fs2 : FileSystem)
    (h : a1.ksize = a2.ksize) :
    createEvents (mainRun a1 fs1).trace =
      [(a1.ksize.getD 32, 500000000, 2)] ∧
    createEvents (mainRun a2 fs2).trace =
      createEvents (mainRun a1 fs1).trace := by
  have key : ∀ (a : Args) (fs : FileSystem),
      createEvents (mainRun a fs).trace =
        [(a.ksize.getD 32, 500000000, 2)] := by
    intro a fs
    have h32 : (KSIZE : Int) = 32 := rfl
    rcases Bool.eq_false_or_eq_true (ingestOk fs) with hi | hi
    · rcases Bool.eq_false_or_eq_true fs.saveOk with hs | hs
      · rw [mainRun_ok a fs hi hs]
        show createEvents (preTrace a ++ _ ++ _) = _
        rw [createEvents_append, createEvents_append,
          preTrace_createEvents, loadTag_createEvents, h32]
        rfl
      · rw [mainRun_saveFail a fs hi hs]
        show createEvents (preTrace a ++ _ ++ _) = _
        rw [createEvents_append, createEvents_append,
          preTrace_createEvents, loadTag_createEvents, h32]
        rfl
    · rw [mainRun_ingestFail a fs hi]
      show createEvents (preTrace a ++ _) = _
      rw [createEvents_append, preTrace_createEvents, loadTag_createEvents,
        h32]
      rfl
  exact ⟨key a1 fs1, by rw [key a1 fs1, key a2 fs2, h]⟩

/-- C6 witness: two concrete runs differing in every argument except the
k-mer size report the same single graph construction with table size
`500000000` and table count `2`. -/
theorem claim_C6_witness :
    createEvents (mainRun ⟨"in.fa", none, false, some 21⟩
      ⟨[⟨"r", "ACGT"⟩], none, true⟩).trace = [((21 : Int), 500000000, 2)] ∧
    createEvents (mainRun ⟨"other.fa", some "x", true, some 21⟩
      ⟨[], some 0, false⟩).trace =
      createEvents (mainRun ⟨"in.fa", none, false, some 21⟩
        ⟨[⟨"r", "ACGT"⟩], none, true⟩).trace :=
  claim_C6 ⟨"in.fa", none, false, some 21⟩ ⟨"other.fa", some "x", true, some 21⟩
    ⟨[⟨"r", "ACGT"⟩], none, true⟩ ⟨[], some 0, false⟩ rfl

/-- C7: every build invocation of any run passes the hash modulus
`9999999967`; on any run whose ingestion completes the build step is
invoked with it; and `9999999967` is prime. -/
theorem claim_C7 (a : Args) (fs : FileSystem) :
    (∀ s m p, Event.buildMinhashes s m p ∈ (mainRun a fs).trace →
      m = 9999999967) ∧
    (ingestOk fs = true →
      Event.buildMinhashes 20 9999999967 a.protein ∈ (mainRun a fs).trace) ∧
    Nat.Prime 9999999967 := by
  refine ⟨?_, ?_, hash_modulus_prime⟩
  · intro s m p hmem
    exact ((build_mem_iff a fs s m p).mp hmem).2.2.1
  · intro h
    exact (build_mem_iff a fs 20 9999999967 a.protein).mpr
      ⟨h, rfl, rfl, rfl⟩

/-- C7 witness: on a concrete run the build step receives the modulus
`9999999967`. -/
theorem claim_C7_witness :
    Event.buildMinhashes 20 9999999967 false ∈
      (mainRun ⟨"in.fa", none, false, none⟩
        ⟨[⟨"r", "ACGT"⟩], none, true⟩).trace :=
  (claim_C7 ⟨"in.fa", none, false, none⟩
    ⟨[⟨"r", "ACGT"⟩], none, true⟩).2.1 (by decide)

/-- C8: the process exits with code 0 exactly when the index is saved to
the output path; any failure (unreadable or truncated input, failed save)
exits with code 1 and prints no completion message. -/
theorem claim_C8 (a : Args) (fs : FileSystem) :
    ((mainRun a fs).exitCode = 0 ↔
      Event.saveIndex (outfileOf a) ∈ (mainRun a fs).trace) ∧
    ((mainRun a fs).exitCode ≠ 0 →
      ∀ p, Event.printDone p ∉ (mainRun a fs).trace) ∧
    ((mainRun a fs).exitCode = 0 ∨ (mainRun a fs).exitCode = 1) := by
  rcases Bool.eq_false_or_eq_true (ingestOk fs) with h | h
  · rcases Bool.eq_false_or_eq_true fs.saveOk with hs | hs
    · rw [mainRun_ok a fs h hs]
      refine ⟨⟨fun _ => ?_, fun _ => rfl⟩, fun hc => absurd rfl hc, Or.inl rfl⟩
      simp
    · rw [mainRun_saveFail a fs h hs]
      refine ⟨⟨fun hc => absurd hc (by simp), fun hmem => ?_⟩,
        fun _ p hmem => ?_, Or.inr rfl⟩
      · exfalso
        simp only [List.append_assoc, List.mem_append] at hmem
        rcases hmem with hmem | hmem | hmem
        · simp [preTrace] at hmem
        · exact loadTag_no_save _ _ _ _ hmem
        · simp at hmem
      · simp only [List.append_assoc, List.mem_append] at hmem
        rcases hmem with hmem | hmem | hmem
        · simp [preTrace] at hmem
        · exact loadTag_no_printDone _ _ _ _ hmem
        · simp at hmem
  · rw [mainRun_ingestFail a fs h]
    refine ⟨⟨fun hc => absurd hc (by simp), fun hmem => ?_⟩,
      fun _ p hmem => ?_, Or.inr rfl⟩
    · exfalso
      simp only [List.mem_append] at hmem
      rcases hmem with hmem | hmem
      · simp [preTrace] at hmem
      · exact loadTag_no_save _ _ _ _ hmem
    · simp only [List.mem_append] at hmem
      rcases hmem with hmem | hmem
      · simp [preTrace] at hmem
      · exact loadTag_no_printDone _ _ _ _ hmem

/-- C8 witness: a concrete failing run (unreadable input) exits 1 and
prints no completion message; a concrete successful run exits 0. -/
theorem claim_C8_witness :
    (∀ p, Event.printDone p ∉
      (mainRun ⟨"in.fa", none, false, none⟩ ⟨[], some 0, true⟩).trace) ∧
    Event.saveIndex "in.fa.mhi" ∈
      (mainRun ⟨"in.fa", none, false, none⟩ ⟨[], none, true⟩).trace :=
  ⟨(claim_C8 ⟨"in.fa", none, false, none⟩ ⟨[], some 0, true⟩).2.1
     (by decide),
   (claim_C8 ⟨"in.fa", none, false, none⟩ ⟨[], none, true⟩).1.mp
     (by decide)⟩

/-- C9: the sketch size passed to the build step is the hardcoded `20` on
every run, independent of all arguments; the module constant `MH_LEN = 50`
is never consulted: the whole run is invariant under any value of it. -/
theorem claim_C9 (a : Args) (fs : FileSystem) :
    (∀ n m : Nat, runScript n a fs = runScript m a fs) ∧
    mainRun a fs = runScript MH_LEN a fs ∧
    MH_LEN = 50 ∧
    (∀ s h p, Event.buildMinhashes s h p ∈ (mainRun a fs).trace →
      s = 20) ∧
    (ingestOk fs = true →
      Event.buildMinhashes 20 9999999967 a.protein ∈
        (mainRun a fs).trace) := by
  refine ⟨fun n m => rfl, rfl, rfl, ?_, ?_⟩
  · intro s h p hmem
    exact ((build_mem_iff a fs s h p).mp hmem).2.1
  · intro h
    exact (build_mem_iff a fs 20 9999999967 a.protein).mpr
      ⟨h, rfl, rfl, rfl⟩

/-- C9 witness: on a concrete run the build step receives sketch size 20,
not `MH_LEN`. -/
theorem claim_C9_witness :
    Event.buildMinhashes 20 9999999967 false ∈
      (mainRun ⟨"in.fa", none, false, none⟩
        ⟨[⟨"r", "ACGT"⟩], none, true⟩).trace ∧
    (20 : Nat) ≠ MH_LEN :=
  ⟨(claim_C9 ⟨"in.fa", none, false, none⟩
      ⟨[⟨"r", "ACGT"⟩], none, true⟩).2.2.2.2 (by decide),
   by decide⟩

/-- C10: the `--protein` flag does not influence ingestion: a run with the
flag and one without produce traces that agree everywhere except the
`protein` argument of the single build invocation, with identical exit
codes; the flag reaches only the build step, where it is passed through. -/
theorem claim_C10 (a : Args) (fs : FileSystem) :
    ((mainRun { a with protein := true } fs).trace.map scrubProtein =
      (mainRun { a with protein := false } fs).trace.map scrubProtein) ∧
    ((mainRun { a with protein := true } fs).exitCode =
      (mainRun { a with protein := false } fs).exitCode) ∧
    (∀ s m p, Event.buildMinhashes s m p ∈ (mainRun a fs).trace →
      p = a.protein) := by
  have houtfile : ∀ b : Bool, outfileOf { a with protein := b } = outfileOf a :=
    fun b => rfl
  have hpre : ∀ b : Bool, preTrace { a with protein := b } = preTrace a :=
    fun b => rfl
  refine ⟨?_, ?_, ?_⟩
  · rcases Bool.eq_false_or_eq_true (ingestOk fs) with h | h
    · rcases Bool.eq_false_or_eq_true fs.saveOk with hs | hs
      · rw [mainRun_ok _ fs h hs, mainRun_ok _ fs h hs]
        simp [houtfile, hpre, scrubProtein]
      · rw [mainRun_saveFail _ fs h hs, mainRun_saveFail _ fs h hs]
        simp [houtfile, hpre, scrubProtein]
    · rw [mainRun_ingestFail _ fs h, mainRun_ingestFail _ fs h]
      simp [houtfile, hpre]
  · rcases Bool.eq_false_or_eq_true (ingestOk fs) with h | h
    · rcases Bool.eq_false_or_eq_true fs.saveOk with hs | hs
      · rw [mainRun_ok _ fs h hs, mainRun_ok _ fs h hs]
      · rw [mainRun_saveFail _ fs h hs, mainRun_saveFail _ fs h hs]
    · rw [mainRun_ingestFail _ fs h, mainRun_ingestFail _ fs h]
  · intro s m p hmem
    exact ((build_mem_iff a fs s m p).mp hmem).2.2.2

/-- C10 witness: two concrete runs differing only in `--protein` have
traces agreeing after erasing the build step's protein argument, and the
build event of a concrete run carries the run's flag. -/
theorem claim_C10_witness :
    ((mainRun ⟨"in.fa", none, true, none⟩
        ⟨[⟨"r", "ACGT"⟩], none, true⟩).trace.map scrubProtein =
      (mainRun ⟨"in.fa", none, false, none⟩
        ⟨[⟨"r", "ACGT"⟩], none, true⟩).trace.map scrubProtein) ∧
    false = (⟨"in.fa", none, false, none⟩ : Args).protein :=
  ⟨(claim_C10 ⟨"in.fa", none, false, none⟩
      ⟨[⟨"r", "ACGT"⟩], none, true⟩).1,
   (claim_C10 ⟨"in.fa", none, false, none⟩
      ⟨[⟨"r", "ACGT"⟩], none, true⟩).2.2 20 9999999967 false (by decide)⟩

end Mhi
